import Mathlib

/-!
Verification of the `torch_utils` training-loop orchestrator
(`src/torch_utils/model.py` and `src/torch_utils/train.py`) against its
natural-language specification.  Python values and side effects are shallowly
embedded: metric values become an inductive tree, filesystem effects become
operation traces, and the stateful parts of `train` become explicit state
passing.
-/

namespace TorchUtils

/-! ## Metric value model (`model.py`, `_CalcMetricsWrapper._normalize`)

A metric result is a nested structure of dicts, lists, numpy arrays, torch
tensors, tuples, other iterables, numbers and opaque values.  Numpy arrays and
tensors are modelled by their flat list of elements (the collapse condition
`len(torch.squeeze(item).shape) == 0` holds exactly when the tensor has one
element, i.e. when the flat list has length 1).  A tensor additionally carries
its gradient-tracking flag; `detach()` clears it. -/

mutual

inductive Value : Type where
  | vdict : KVs → Value
  | vlist : Values → Value
  | ndarray : List Rat → Value
  | tensor : Bool → List Rat → Value
  | vtuple : Values → Value
  | viter : Values → Value
  | num : Rat → Value
  | opaq : Nat → Value

inductive Values : Type where
  | nil : Values
  | cons : Value → Values → Values

inductive KVs : Type where
  | nil : KVs
  | cons : String → Value → KVs → KVs

end

/-! `normalize_item` from `_CalcMetricsWrapper._normalize`:
dict → recurse on values; list → recurse; `np.ndarray` → returned unchanged;
`torch.Tensor` → if the squeezed shape is non-empty (more or fewer than one
element) return `item.detach()`, else collapse to `item()` (a plain number);
any other iterable → tuple of normalized elements; anything else unchanged. -/

mutual

def normalize_item : Value → Value
  | .vdict kvs => .vdict (normalizeKVs kvs)
  | .vlist vs => .vlist (normalizeValues vs)
  | .ndarray xs => .ndarray xs
  | .tensor _ xs => if xs.length = 1 then .num (xs.headD 0) else .tensor false xs
  | .vtuple vs => .vtuple (normalizeValues vs)
  | .viter vs => .vtuple (normalizeValues vs)
  | .num q => .num q
  | .opaq n => .opaq n

def normalizeValues : Values → Values
  | .nil => .nil
  | .cons v vs => .cons (normalize_item v) (normalizeValues vs)

def normalizeKVs : KVs → KVs
  | .nil => .nil
  | .cons k v kvs => .cons k (normalize_item v) (normalizeKVs kvs)

end

mutual

theorem normalize_item_idem_aux : ∀ v : Value,
    normalize_item (normalize_item v) = normalize_item v
  | .vdict kvs => by
      simp [normalize_item, normalizeKVs_idem_aux kvs]
  | .vlist vs => by
      simp [normalize_item, normalizeValues_idem_aux vs]
  | .ndarray xs => by simp [normalize_item]
  | .tensor g xs => by
      by_cases h : xs.length = 1 <;> simp [normalize_item, h]
  | .vtuple vs => by
      simp [normalize_item, normalizeValues_idem_aux vs]
  | .viter vs => by
      simp [normalize_item, normalizeValues_idem_aux vs]
  | .num q => by simp [normalize_item]
  | .opaq n => by simp [normalize_item]

theorem normalizeValues_idem_aux : ∀ vs : Values,
    normalizeValues (normalizeValues vs) = normalizeValues vs
  | .nil => by simp [normalizeValues]
  | .cons v vs => by
      simp [normalizeValues, normalize_item_idem_aux v, normalizeValues_idem_aux vs]

theorem normalizeKVs_idem_aux : ∀ kvs : KVs,
    normalizeKVs (normalizeKVs kvs) = normalizeKVs kvs
  | .nil => by simp [normalizeKVs]
  | .cons k v kvs => by
      simp [normalizeKVs, normalize_item_idem_aux v, normalizeKVs_idem_aux kvs]

end

/-! ## `evaluating` context manager (`model.py`, lines 7-16)

The model's mode is a single Bool (`net.training`) carried next to the rest
of the model state.  The context manager saves `istrain = net.training`,
calls `net.eval()`, and yields the full `net` to the body — which may do
anything to it, including calling `net.train()` or `net.eval()` itself, and
may raise.  The `finally` block runs whether or not the body raised and calls
`net.train()` only when `istrain` was set; otherwise it leaves the net as the
body left it.  The body returns the net it leaves behind and whether it
raised. -/

def evaluating_run {σ : Type} (net : Bool × σ)
    (body : Bool × σ → (Bool × σ) × Bool) : (Bool × σ) × Bool :=
  let istrain := net.1
  let entered : Bool × σ := (false, net.2)
  let bodyOut := body entered
  let afterBody := bodyOut.1
  let finalNet : Bool × σ := if istrain then (true, afterBody.2) else afterBody
  (finalNet, bodyOut.2)

/-! ## Filesystem-effect trace of `save_checkpoint` (`train.py`, lines 3-44)

`save_checkpoint` serializes the checkpoint dict with
`torch.save(checkpoint_dict, checkpoint_path)` and, when `symlink_name` is
given, unlinks any existing symlink of that name and creates a fresh one
pointing at the checkpoint's basename.  We record the sequence of filesystem
operations it performs; serialized content is abstracted to a `Nat` id.
A `.write p c` op writes content `c` at path `p` in place (the underlying
`torch.save` streams into the destination file directly). -/

inductive FsOp : Type where
  | write : String → Nat → FsOp
  | unlink : String → FsOp
  | symlink : String → String → FsOp
  | rename : String → String → FsOp
deriving DecidableEq, Repr

def save_checkpoint_ops (dir name : String) (content : Nat)
    (symlinkName : Option String) (symlinkExists : Bool) : List FsOp :=
  [FsOp.write (dir ++ "/" ++ name) content] ++
    match symlinkName with
    | none => []
    | some s =>
        (if symlinkExists then [FsOp.unlink (dir ++ "/" ++ s)] else []) ++
          [FsOp.symlink name (dir ++ "/" ++ s)]

/-- Modelled from the spec: "atomic with respect to partial writes (write to
temp, rename)" — the trace never writes directly at the final path, and some
temporary path is written and then renamed onto the final path. -/
def usesTempThenRename (ops : List FsOp) (final : String) : Prop :=
  (∀ c, FsOp.write final c ∉ ops) ∧
    ∃ tmp c, tmp ≠ final ∧ FsOp.write tmp c ∈ ops ∧ FsOp.rename tmp final ∈ ops

/-! ## RNG restoration in `load_checkpoint` (`train.py`, lines 47-86)

The checkpoint dict stores `rng_state = {python, numpy, torch[, torch_cuda]}`.
When `load_rnd_state` is true the three mandatory sources are restored and the
cuda source only when cuda is available and the key is present; when false the
interpreter's generator states are untouched. -/

structure RngState : Type where
  python : Nat
  numpy : Nat
  torch : Nat
  torchCuda : Option Nat
deriving DecidableEq, Repr

structure CheckpointRec : Type where
  rng : RngState
  step : Nat
  loss : Rat
deriving DecidableEq, Repr

def load_checkpoint_rng (rec : CheckpointRec) (load_rnd_state : Bool)
    (cudaAvailable : Bool) (cur : RngState) : RngState :=
  if load_rnd_state then
    { python := rec.rng.python
      numpy := rec.rng.numpy
      torch := rec.rng.torch
      torchCuda :=
        if cudaAvailable && rec.rng.torchCuda.isSome then rec.rng.torchCuda
        else cur.torchCuda }
  else cur

/-- Best-pointer seeding on resume (`train.py`, lines 255-262): if the best
checkpoint file exists, read its `(step, loss)` via
`load_checkpoint(checkpoint_best_path, load_rnd_state=False)`; otherwise seed
the best pointer from the resumed checkpoint and copy its file (no load).
Returns the best `(step, loss)` together with the RNG state afterwards. -/
def seedBestPointer (bestExists : Bool) (bestRec : CheckpointRec)
    (resumeStep : Nat) (resumeLoss : Rat) (cudaAvailable : Bool)
    (cur : RngState) : (Nat × Rat) × RngState :=
  if bestExists then
    ((bestRec.step, bestRec.loss),
      load_checkpoint_rng bestRec false cudaAvailable cur)
  else
    ((resumeStep, resumeLoss), cur)

/-! ## Extension-state loading in `load_checkpoint` (`train.py`, lines 73-78)

For each `(key, module)` in `extra_modules` the code reads
`checkpoint_dict.get('ext.' + key)`; if `strict` and the state is `None`
it raises `KeyError`, otherwise it calls `module.load_state_dict(state)` —
with `state = None` when the key is absent and `strict` is false.  We record
the sequence of `load_state_dict` invocations, or the error. -/

def loadExtensions {St : Type} (dict : String → Option St)
    (mods : List String) (strict : Bool) :
    Except String (List (String × Option St)) :=
  match mods with
  | [] => .ok []
  | k :: rest =>
      let state := dict ("ext." ++ k)
      if strict && state.isNone then
        .error ("Cannot find " ++ k ++ " in the checkpoint")
      else
        match loadExtensions dict rest strict with
        | .error e => .error e
        | .ok calls => .ok ((k, state) :: calls)

/-! ## Best-checkpoint promotion (`train.py`, lines 383-385 and 400-409)

`if checkpoint_best_data[1] >= loss: checkpoint_best_data = epoch, loss`.
The current best is a `(step, loss)` pair; the candidate replaces it exactly
when the current best loss is ≥ the candidate loss. -/

def promoteBest (cand cur : Nat × Rat) : Nat × Rat :=
  if cur.2 ≥ cand.2 then cand else cur

def foldBest (cands : List (Nat × Rat)) (cur : Nat × Rat) : Nat × Rat :=
  cands.foldl (fun b c => promoteBest c b) cur

/-! ## Checkpoint-history pruning (`train.py`, lines 236-240 and 366-371)

The history is the list of checkpoint steps in ascending order (index 0 is the
oldest).  The bootstrap prune is `while len(history) > limit: del history[0]`
(removing the file as it goes); the per-checkpoint-write prune appends the new
entry and then removes a single oldest entry when the limit is exceeded. -/

def pruneToLimit (limit : Nat) : List Nat → List Nat
  | [] => []
  | a :: t => if (a :: t).length > limit then pruneToLimit limit t else a :: t

def stepPrune (limit : Option Nat) (h : List Nat) (e : Nat) : List Nat :=
  let h2 := h ++ [e]
  match limit with
  | some L => if h2.length > L then h2.tail else h2
  | none => h2

/-! ## Retention-limit resolution and bootstrap (`train.py`, lines 170-171,
236-240)

`if checkpoints_limit is not None: checkpoints_limit = max(1, checkpoints_limit)`
— there is no validation and no exception on this path; the limit is clamped
and the bootstrap prune then runs under the clamped value.  `configError`
records the error raised by this phase, if any. -/

structure SetupOutcome : Type where
  effectiveLimit : Option Int
  prunedHistory : List Nat
  configError : Option String
deriving DecidableEq, Repr

def clampCheckpointsLimit (l : Option Int) : Option Int :=
  l.map (fun v => max 1 v)

def trainSetupLimit (l : Option Int) (hist : List Nat) : SetupOutcome :=
  let cl := clampCheckpointsLimit l
  { effectiveLimit := cl
    prunedHistory :=
      match cl with
      | some L => pruneToLimit L.toNat hist
      | none => hist
    configError := none }

/-! ## Resume decision (`train.py`, lines 198-203, 255-311, 316)

With a resume checkpoint supplied, `epoch_offset, loss` come from
`load_checkpoint`; the cold-start block (inference-mode baseline pass and the
step-0 checkpoint, lines 263-311) runs only in the `else` branch, and the
epoch loop is `for epoch in range(epoch_offset, epochs)`. -/

structure BootOutcome : Type where
  epochOffset : Nat
  initLoss : Rat
  coldDiagRan : Bool
  zeroCheckpointSaved : Bool
  epochsExecuted : List Nat
deriving DecidableEq, Repr

def trainBoot (epochs : Nat) (resume : Option (Nat × Rat)) (coldLoss : Rat) :
    BootOutcome :=
  match resume with
  | some st =>
      { epochOffset := st.1
        initLoss := st.2
        coldDiagRan := false
        zeroCheckpointSaved := false
        epochsExecuted := List.range' st.1 (epochs - st.1) }
  | none =>
      { epochOffset := 0
        initLoss := coldLoss
        coldDiagRan := true
        zeroCheckpointSaved := true
        epochsExecuted := List.range' 0 epochs }

/-! ## Helper lemmas -/

theorem pruneToLimit_eq_drop (L : Nat) (h : List Nat) :
    pruneToLimit L h = h.drop (h.length - L) := by
  induction h with
  | nil => simp [pruneToLimit]
  | cons a t ih =>
      rw [pruneToLimit]
      by_cases hl : (a :: t).length > L
      · rw [if_pos hl]
        have hL : (a :: t).length - L = (t.length - L) + 1 := by
          simp only [List.length_cons] at hl ⊢
          omega
        rw [hL, List.drop_succ_cons, ih]
      · rw [if_neg hl]
        have hL : (a :: t).length - L = 0 := by
          simp only [List.length_cons] at hl ⊢
          omega
        rw [hL, List.drop_zero]

theorem pruneToLimit_length_le (L : Nat) (h : List Nat) :
    (pruneToLimit L h).length ≤ L := by
  rw [pruneToLimit_eq_drop, List.length_drop]
  omega

theorem pruneToLimit_noop (L : Nat) (h : List Nat) (hle : h.length ≤ L) :
    pruneToLimit L h = h := by
  rw [pruneToLimit_eq_drop]
  have : h.length - L = 0 := by omega
  simp [this]

theorem pruneToLimit_idem (L : Nat) (h : List Nat) :
    pruneToLimit L (pruneToLimit L h) = pruneToLimit L h :=
  pruneToLimit_noop L _ (pruneToLimit_length_le L h)

theorem pruneToLimit_most_recent (L : Nat) (g : List Nat)
    (hs : g.Sorted (· ≤ ·)) :
    ∀ x ∈ g.take (g.length - L), ∀ y ∈ pruneToLimit L g, x ≤ y := by
  rw [pruneToLimit_eq_drop]
  have hsplit : g.take (g.length - L) ++ g.drop (g.length - L) = g :=
    List.take_append_drop _ g
  have hp : List.Pairwise (· ≤ ·)
      (g.take (g.length - L) ++ g.drop (g.length - L)) := by
    rw [hsplit]
    exact hs
  exact (List.pairwise_append.mp hp).2.2

theorem stepPrune_eq_drop (L : Nat) (h : List Nat) (e : Nat)
    (hle : h.length ≤ L) :
    stepPrune (some L) h e = (h ++ [e]).drop (h.length + 1 - L) := by
  simp only [stepPrune]
  by_cases hl : (h ++ [e]).length > L
  · rw [if_pos hl]
    have h2 : h.length + 1 - L = 1 := by
      simp only [List.length_append, List.length_singleton] at hl
      omega
    rw [h2, List.drop_one]
  · rw [if_neg hl]
    have h2 : h.length + 1 - L = 0 := by
      simp only [List.length_append, List.length_singleton] at hl
      omega
    rw [h2, List.drop_zero]

theorem stepPrune_length_le (L : Nat) (h : List Nat) (e : Nat)
    (hle : h.length ≤ L) :
    (stepPrune (some L) h e).length ≤ L := by
  rw [stepPrune_eq_drop L h e hle, List.length_drop]
  simp only [List.length_append, List.length_singleton]
  omega

theorem promoteBest_snd_min (cand cur : Nat × Rat) :
    (promoteBest cand cur).2 = min cand.2 cur.2 := by
  unfold promoteBest
  by_cases hc : cur.2 ≥ cand.2
  · simp [hc, min_eq_left hc]
  · push_neg at hc
    simp [not_le.mpr hc, min_eq_right (le_of_lt hc)]

theorem foldBest_snd_le (l : List (Nat × Rat)) :
    ∀ cur : Nat × Rat, (foldBest l cur).2 ≤ cur.2 := by
  induction l with
  | nil => intro cur; simp [foldBest]
  | cons c l ih =>
      intro cur
      have step : (foldBest (c :: l) cur) = foldBest l (promoteBest c cur) := by
        simp [foldBest, List.foldl_cons]
      rw [step]
      calc (foldBest l (promoteBest c cur)).2 ≤ (promoteBest c cur).2 := ih _
        _ ≤ cur.2 := by rw [promoteBest_snd_min]; exact min_le_right _ _

theorem foldBest_append (l₁ l₂ : List (Nat × Rat)) (cur : Nat × Rat) :
    foldBest (l₁ ++ l₂) cur = foldBest l₂ (foldBest l₁ cur) := by
  simp [foldBest, List.foldl_append]

theorem loadExtensions_strict_missing {St : Type} (dict : String → Option St) :
    ∀ (mods : List String) (k : String), k ∈ mods →
      dict ("ext." ++ k) = none →
      ∃ e, loadExtensions dict mods true = .error e := by
  intro mods
  induction mods with
  | nil =>
      intro k hk
      exact absurd hk (List.not_mem_nil k)
  | cons m rest ih =>
      intro k hk hmiss
      cases hstate : dict ("ext." ++ m) with
      | none =>
          exact ⟨"Cannot find " ++ m ++ " in the checkpoint",
            by simp [loadExtensions, hstate]⟩
      | some s =>
          have hkr : k ∈ rest := by
            rcases List.mem_cons.mp hk with h | h
            · rw [← h, hmiss] at hstate
              exact Option.noConfusion hstate
            · exact h
          obtain ⟨e, he⟩ := ih k hkr hmiss
          exact ⟨e, by simp [loadExtensions, hstate, he]⟩

theorem loadExtensions_lenient {St : Type} (dict : String → Option St) :
    ∀ mods : List String,
      loadExtensions dict mods false =
        .ok (mods.map fun m => (m, dict ("ext." ++ m))) := by
  intro mods
  induction mods with
  | nil => simp [loadExtensions]
  | cons m rest ih => simp [loadExtensions, ih]

/-! ## Claim theorems -/

/-- Claim C1, counterexample.  The filesystem trace of `save_checkpoint` at a
concrete input is not atomic in the claimed sense: it writes directly at the
canonical checkpoint path, so there is no temp-file-then-rename step and a
partial write is visible under the canonical name. -/
theorem save_checkpoint_not_temp_rename_cex :
    ¬ usesTempThenRename
        (save_checkpoint_ops "ckpts" "checkpoint_1.pth" 0
          (some "checkpoint_last.pth") true)
        ("ckpts" ++ "/" ++ "checkpoint_1.pth") := by
  intro hat
  exact hat.1 0 (by simp [save_checkpoint_ops])

/-- Claim C1, amended.  `save_checkpoint` serializes directly to the
destination path (the first operation of its trace is a write at the final
path, and no rename operation ever occurs), and the `last` alias is updated by
unlinking the existing symlink and creating a fresh one — two separate steps,
not an atomic replacement. -/
theorem save_checkpoint_direct_write (dir name s : String) (c : Nat)
    (ex : Bool) (l : Option String) :
    (save_checkpoint_ops dir name c l ex).head? =
      some (FsOp.write (dir ++ "/" ++ name) c) ∧
    (∀ a b, FsOp.rename a b ∉ save_checkpoint_ops dir name c l ex) ∧
    save_checkpoint_ops dir name c (some s) true =
      [FsOp.write (dir ++ "/" ++ name) c,
        FsOp.unlink (dir ++ "/" ++ s),
        FsOp.symlink name (dir ++ "/" ++ s)] := by
  refine ⟨?_, ?_, ?_⟩
  · cases l <;> simp [save_checkpoint_ops]
  · intro a b
    cases l <;> cases ex <;> simp [save_checkpoint_ops]
  · simp [save_checkpoint_ops]

/-- Claim C2: after the bootstrap `while`-prune the history length is at most
`L`, the survivors are exactly the final (most-recent-by-step) segment of the
ascending history, pruning a compliant history is a no-op and pruning is
idempotent; the per-checkpoint-write prune preserves the same bound and shape
when applied to a compliant history. -/
theorem checkpoint_retention_invariant (L : Nat) (h : List Nat) (e : Nat)
    (hcomp : h.length ≤ L) :
    (∀ g : List Nat, (pruneToLimit L g).length ≤ L) ∧
    (∀ g : List Nat, pruneToLimit L g = g.drop (g.length - L)) ∧
    (∀ g : List Nat, g.Sorted (· ≤ ·) →
      ∀ x ∈ g.take (g.length - L), ∀ y ∈ pruneToLimit L g, x ≤ y) ∧
    pruneToLimit L h = h ∧
    (∀ g : List Nat, pruneToLimit L (pruneToLimit L g) = pruneToLimit L g) ∧
    (stepPrune (some L) h e).length ≤ L ∧
    stepPrune (some L) h e = (h ++ [e]).drop (h.length + 1 - L) :=
  ⟨fun g => pruneToLimit_length_le L g,
   fun g => pruneToLimit_eq_drop L g,
   fun g hs => pruneToLimit_most_recent L g hs,
   pruneToLimit_noop L h hcomp,
   fun g => pruneToLimit_idem L g,
   stepPrune_length_le L h e hcomp,
   stepPrune_eq_drop L h e hcomp⟩

/-- Claim C2, witness at `L = 2`, history `[1, 2]`, new step `3`. -/
theorem checkpoint_retention_invariant_witness :
    pruneToLimit 2 [1, 2] = [1, 2] ∧
    stepPrune (some 2) [1, 2] 3 =
      ([1, 2] ++ [3]).drop (([1, 2] : List Nat).length + 1 - 2) :=
  ⟨(checkpoint_retention_invariant 2 [1, 2] 3 (by decide)).2.2.2.1,
   (checkpoint_retention_invariant 2 [1, 2] 3 (by decide)).2.2.2.2.2.2⟩

/-- Claim C3: the best pointer is replaced by the candidate exactly when the
candidate loss is ≤ the current best loss (so an equal-loss, newer candidate
wins), the promoted loss is the minimum of the two, and the recorded best loss
is non-increasing across any sequence of promotion attempts. -/
theorem best_pointer_promotion (cand cur : Nat × Rat)
    (l₁ l₂ : List (Nat × Rat)) :
    (cand.2 ≤ cur.2 → promoteBest cand cur = cand) ∧
    (cur.2 < cand.2 → promoteBest cand cur = cur) ∧
    (promoteBest cand cur).2 = min cand.2 cur.2 ∧
    (foldBest (l₁ ++ l₂) cur).2 ≤ (foldBest l₁ cur).2 := by
  refine ⟨?_, ?_, promoteBest_snd_min cand cur, ?_⟩
  · intro hc
    unfold promoteBest
    rw [if_pos hc]
  · intro hc
    unfold promoteBest
    rw [if_neg (not_le.mpr hc)]
  · rw [foldBest_append]
    exact foldBest_snd_le l₂ _

/-- Claim C3, witness: the candidate `(2, 3)` replaces the best `(1, 5)`, and
extending a promotion sequence never increases the recorded best loss. -/
theorem best_pointer_promotion_witness :
    promoteBest (2, (3 : Rat)) (1, 5) = (2, 3) ∧
    (foldBest ([] ++ [((2 : Nat), (3 : Rat))]) (1, 5)).2 ≤
      (foldBest [] (((1 : Nat), (5 : Rat)))).2 :=
  ⟨(best_pointer_promotion (2, 3) (1, 5) [] [(2, 3)]).1 (by norm_num),
   (best_pointer_promotion (2, 3) (1, 5) [] [(2, 3)]).2.2.2⟩

/-- Claim C4, counterexample.  A one-element numpy array is a one-element
numeric container, yet `normalize_item` returns it unchanged (the `np.ndarray`
branch precedes the tensor branch), so it is not collapsed to a plain
scalar. -/
theorem single_element_ndarray_not_collapsed :
    normalize_item (Value.ndarray [(5 : Rat)]) = Value.ndarray [(5 : Rat)] ∧
    normalize_item (Value.ndarray [(5 : Rat)]) ≠ Value.num 5 := by
  constructor
  · simp [normalize_item]
  · simp [normalize_item]

/-- Claim C4, amended.  Only one-element tensors collapse to a plain scalar
equal to their element; a multi-element tensor is passed through with the same
length and values (merely detached), and numpy arrays — of any length,
including one — pass through unchanged. -/
theorem single_element_collapse_amended (g : Bool) (xs ys zs : List Rat)
    (h1 : xs.length = 1) (h2 : 1 < ys.length) :
    normalize_item (Value.tensor g xs) = Value.num (xs.headD 0) ∧
    normalize_item (Value.tensor g ys) = Value.tensor false ys ∧
    normalize_item (Value.ndarray zs) = Value.ndarray zs := by
  have hne : ys.length ≠ 1 := by omega
  exact ⟨by simp [normalize_item, h1], by simp [normalize_item, hne],
    by simp [normalize_item]⟩

/-- Claim C4, amended witness at tensors `[3]` and `[1, 2]` and numpy array
`[7]`. -/
theorem single_element_collapse_amended_witness :
    normalize_item (Value.tensor true [(3 : Rat)]) = Value.num 3 ∧
    normalize_item (Value.tensor true [(1 : Rat), 2]) =
      Value.tensor false [1, 2] ∧
    normalize_item (Value.ndarray [(7 : Rat)]) = Value.ndarray [7] :=
  single_element_collapse_amended true [3] [1, 2] [7] (by decide) (by decide)

/-- Claim C5: `normalize_item` is idempotent on every supported value shape
(nested dicts, lists, numpy arrays, tensors, tuples, other iterables, numbers
and opaque scalars). -/
theorem normalize_idempotent (v : Value) :
    normalize_item (normalize_item v) = normalize_item v :=
  normalize_item_idem_aux v

/-- Claim C6: with `strict = true`, a requested extension key whose state is
absent from the checkpoint dict makes `load_checkpoint`'s extension phase fail
with an error; with `strict = false` every extension's `load_state_dict` is
invoked, receiving `none` for absent states. -/
theorem strict_extension_loading {St : Type} (dict : String → Option St)
    (mods : List String) (k : String)
    (hk : k ∈ mods) (hmiss : dict ("ext." ++ k) = none) :
    (∃ e, loadExtensions dict mods true = .error e) ∧
    loadExtensions dict mods false =
      .ok (mods.map fun m => (m, dict ("ext." ++ m))) :=
  ⟨loadExtensions_strict_missing dict mods k hk hmiss,
   loadExtensions_lenient dict mods⟩

/-- Claim C6, witness: one extension `a` with no saved state. -/
theorem strict_extension_loading_witness :
    (∃ e, loadExtensions (fun _ => (none : Option Nat)) ["a"] true =
      .error e) ∧
    loadExtensions (fun _ => (none : Option Nat)) ["a"] false =
      .ok (["a"].map fun m => (m, (none : Option Nat))) :=
  strict_extension_loading (fun _ => none) ["a"] "a" (by simp) rfl

/-- Claim C7: when a resume checkpoint is supplied, the initial epoch counter
equals the step recorded in the checkpoint, the cold-start epoch-0 diagnostic
pass and the step-0 checkpoint are skipped, and the epoch loop starts at the
recorded step. -/
theorem resume_starts_at_checkpoint_step (epochs step : Nat)
    (loss coldLoss : Rat) (h : step < epochs) :
    (trainBoot epochs (some (step, loss)) coldLoss).epochOffset = step ∧
    (trainBoot epochs (some (step, loss)) coldLoss).coldDiagRan = false ∧
    (trainBoot epochs (some (step, loss)) coldLoss).zeroCheckpointSaved
      = false ∧
    (trainBoot epochs (some (step, loss)) coldLoss).epochsExecuted.head?
      = some step := by
  refine ⟨rfl, rfl, rfl, ?_⟩
  obtain ⟨n, hn⟩ : ∃ n, epochs - step = n + 1 := ⟨epochs - step - 1, by omega⟩
  simp [trainBoot, hn, List.range'_succ]

/-- Claim C7, witness: resuming at step 3 of 5 epochs. -/
theorem resume_starts_at_checkpoint_step_witness :
    (trainBoot 5 (some (3, (2 : Rat))) 7).epochOffset = 3 ∧
    (trainBoot 5 (some (3, (2 : Rat))) 7).coldDiagRan = false ∧
    (trainBoot 5 (some (3, (2 : Rat))) 7).zeroCheckpointSaved = false ∧
    (trainBoot 5 (some (3, (2 : Rat))) 7).epochsExecuted.head? = some 3 :=
  resume_starts_at_checkpoint_step 5 3 2 7 (by decide)

/-- Claim C8, counterexample.  With the invalid retention limit `0` and three
existing checkpoints, the setup phase raises no error: the limit is silently
clamped to `1` and the run proceeds, pruning the history to the single newest
entry. -/
theorem invalid_limit_no_error_cex :
    trainSetupLimit (some 0) [1, 2, 3] =
      { effectiveLimit := some 1, prunedHistory := [3],
        configError := none } := by
  decide

/-- Claim C8, amended.  An invalid (non-positive) checkpoints limit does not
raise a `ConfigurationError`; it is silently clamped to `1` before the loop
starts and the bootstrap prune runs under the clamped limit. -/
theorem invalid_limit_clamped (v : Int) (hist : List Nat) (hv : v ≤ 0) :
    (trainSetupLimit (some v) hist).configError = none ∧
    (trainSetupLimit (some v) hist).effectiveLimit = some 1 ∧
    (trainSetupLimit (some v) hist).prunedHistory = pruneToLimit 1 hist ∧
    (trainSetupLimit (some v) hist).prunedHistory.length ≤ 1 := by
  have h1 : max 1 v = 1 := max_eq_left (hv.trans (by norm_num))
  have h2 : (trainSetupLimit (some v) hist).prunedHistory =
      pruneToLimit 1 hist := by
    simp [trainSetupLimit, clampCheckpointsLimit, h1]
  refine ⟨rfl, ?_, h2, ?_⟩
  · simp [trainSetupLimit, clampCheckpointsLimit, h1]
  · rw [h2]
    exact pruneToLimit_length_le 1 hist

/-- Claim C8, amended witness at limit `-2` and history `[4, 5]`. -/
theorem invalid_limit_clamped_witness :
    (trainSetupLimit (some (-2)) [4, 5]).configError = none ∧
    (trainSetupLimit (some (-2)) [4, 5]).effectiveLimit = some 1 ∧
    (trainSetupLimit (some (-2)) [4, 5]).prunedHistory =
      pruneToLimit 1 [4, 5] ∧
    (trainSetupLimit (some (-2)) [4, 5]).prunedHistory.length ≤ 1 :=
  invalid_limit_clamped (-2) [4, 5] (by norm_num)

/-- Claim C9, counterexample.  A block that itself calls `net.train()` on a
model that entered the `evaluating` context in evaluation mode leaves the
model in training mode after the block: the conditional `finally`
(`if istrain: net.train()`) restores nothing when `istrain` was false, so the
flag after the block differs from its entry value. -/
theorem evaluating_eval_mode_not_restored_cex :
    ((evaluating_run ((false : Bool), (0 : Nat))
        (fun s => ((true, s.2), false))).1).1 ≠
      ((((false : Bool), (0 : Nat)) : Bool × Nat)).1 := by
  decide

/-- Claim C9, amended.  The `evaluating` context manager restores training
mode whenever the model entered in training mode, regardless of what the body
did to the mode and of whether it raised; when the model entered in
evaluation mode the `finally` clause is a no-op, so the mode after the block
is whatever the body left it at — in particular the model stays in evaluation
mode for every block that does not itself switch the model to training mode.
The body's raise outcome is propagated unchanged. -/
theorem evaluating_conditional_restore {σ : Type} (net : Bool × σ)
    (body : Bool × σ → (Bool × σ) × Bool) :
    (net.1 = true → ((evaluating_run net body).1).1 = true) ∧
    (net.1 = false →
      ((evaluating_run net body).1).1 = ((body (false, net.2)).1).1) ∧
    (net.1 = false → ((body (false, net.2)).1).1 = false →
      ((evaluating_run net body).1).1 = net.1) ∧
    (evaluating_run net body).2 = (body (false, net.2)).2 := by
  refine ⟨fun h => ?_, fun h => ?_, fun h hb => ?_, ?_⟩
  · simp [evaluating_run, h]
  · simp [evaluating_run, h]
  · simp [evaluating_run, h, hb]
  · simp [evaluating_run]

/-- Claim C9, amended witness: an evaluation-mode model with a block that
leaves the mode as it found it ends the block still in evaluation mode. -/
theorem evaluating_conditional_restore_witness :
    ((evaluating_run ((false : Bool), (0 : Nat))
        (fun s => (s, false))).1).1 =
      ((((false : Bool), (0 : Nat)) : Bool × Nat)).1 :=
  (evaluating_conditional_restore ((false : Bool), (0 : Nat))
    (fun s => (s, false))).2.2.1 rfl rfl

/-- Claim C10: reading the existing best-checkpoint file while seeding the
best pointer on resume uses `load_rnd_state = False`, so the pseudo-random
generator states restored from the resume checkpoint are left untouched (as
they are on the copy path when no best file exists). -/
theorem best_read_preserves_rng (bestRec : CheckpointRec) (bestExists : Bool)
    (resumeStep : Nat) (resumeLoss : Rat) (cudaAvailable : Bool)
    (cur : RngState) :
    (seedBestPointer bestExists bestRec resumeStep resumeLoss cudaAvailable
      cur).2 = cur ∧
    load_checkpoint_rng bestRec false cudaAvailable cur = cur := by
  unfold seedBestPointer load_checkpoint_rng
  cases bestExists <;> simp

end TorchUtils
